import Mathlib

/-!
Verification of the ketu aspect-detection engine.

This file is a shallow embedding of the core of `ketu/ketu.py`: the body and
aspect catalogs, the angular-distance function `distance`, the orb resolver
`get_orb`, the decimal-degree converter `dd_to_dms`, the name lookup
`body_id`, the aspect classifier `get_aspect` and the pair enumerator
`get_aspects`.

Modelling conventions:
- Python/NumPy floating-point degree values are modelled as exact rationals
  (`ℚ`); the float32 aspect coefficients 1/3, 1/2, 2/3 are the exact
  rationals.  No property below hinges on float rounding.
- The ephemeris provider (`swisseph`) is external to the repository; a date's
  longitudes enter the classifier only through `body_long`, so the classifier
  is parametrised by an arbitrary longitude assignment `long : ℕ → ℚ`
  (body id to ecliptic longitude).  Quantifying over `long` quantifies over
  all dates.
- NumPy fancy indexing `bodies['id'][np.where(bodies['name'] == n)]`, which
  yields the (possibly empty) array of ids of matching entries, is modelled
  as a `List` of the matching ids.
- The `i4` cast of a float (used by `dd_to_dms`) truncates toward zero.
-/

namespace Ketu

/-- A row of the `bodies` structured array: name, swisseph id, orb of
influence in degrees. -/
structure Body where
  name : String
  id : Int
  orb : ℚ
deriving DecidableEq, Repr

/-- The `bodies` structured array of `ketu/ketu.py` (11 bodies).  The id of
each body equals its index in the array. -/
def bodies : List Body :=
  [⟨"Sun", 0, 12⟩, ⟨"Moon", 1, 12⟩, ⟨"Mercury", 2, 8⟩,
   ⟨"Venus", 3, 8⟩, ⟨"Mars", 4, 10⟩, ⟨"Jupiter", 5, 10⟩,
   ⟨"Saturn", 6, 10⟩, ⟨"Uranus", 7, 6⟩, ⟨"Neptune", 8, 6⟩,
   ⟨"Pluto", 9, 4⟩, ⟨"Rahu", 10, 0⟩]

/-- A row of the `aspects` structured array: name, target separation in
degrees, orb coefficient. -/
structure Aspect where
  name : String
  value : ℚ
  coef : ℚ
deriving DecidableEq, Repr

/-- The `aspects` structured array of `ketu/ketu.py` (5 classical aspects),
in ascending order of separation; classification iterates in this order. -/
def aspects : List Aspect :=
  [⟨"Conjunction", 0, 1⟩, ⟨"Sextile", 60, 1/3⟩,
   ⟨"Square", 90, 1/2⟩, ⟨"Trine", 120, 2/3⟩,
   ⟨"Opposition", 180, 1⟩]

/-- Python float floor-division `x // y` (the quotient part of `divmod`). -/
def floorDivQ (x y : ℚ) : ℚ := (⌊x / y⌋ : ℚ)

/-- Python float modulo `x % y` (the remainder part of `divmod`). -/
def floorModQ (x y : ℚ) : ℚ := x - y * (⌊x / y⌋ : ℚ)

/-- NumPy cast of a float to `i4`: truncation toward zero. -/
def truncInt (q : ℚ) : Int := if q < 0 then ⌈q⌉ else ⌊q⌋

/-- `dd_to_dms(deg)` of `ketu/ketu.py`:
`mins, secs = divmod(deg * 3600, 60); degs, mins = divmod(mins, 60)`,
the triple then being cast to `i4`. -/
def dd_to_dms (deg : ℚ) : Int × Int × Int :=
  let mins := floorDivQ (deg * 3600) 60
  let secs := floorModQ (deg * 3600) 60
  let degs := floorDivQ mins 60
  let mins2 := floorModQ mins 60
  (truncInt degs, truncInt mins2, truncInt secs)

/-- Reconstruction of a decimal-degree value from the truncated
degrees/minutes/seconds returned by `dd_to_dms`. -/
def dms_recon (deg : ℚ) : ℚ :=
  ((dd_to_dms deg).1 : ℚ) + ((dd_to_dms deg).2.1 : ℚ) / 60 +
    ((dd_to_dms deg).2.2 : ℚ) / 3600

/-- `distance(pos1, pos2)` of `ketu/ketu.py`: shortest angular distance
between two longitudes. -/
def distance (pos1 pos2 : ℚ) : ℚ :=
  let angle := |pos2 - pos1|
  if angle ≤ 180 then angle else 360 - angle

/-- Orb of influence of the body at index `b` of the catalog
(`bodies['orb'][b]`; body ids coincide with catalog indices). -/
def bodyOrb (b : ℕ) : ℚ := ((bodies[b]?).map Body.orb).getD 0

/-- `get_orb(body1, body2, aspect)` of `ketu/ketu.py`:
`(bodies['orb'][body1] + bodies['orb'][body2])/2 *
aspects['coef'][np.where(aspects['value'] == aspect)][0]`.
The NumPy lookup of the coefficient by aspect value is a `find?` on the
aspect catalog; indexing `[0]` into an empty match fails, hence `Option`. -/
def get_orb (body1 body2 : ℕ) (aspect : ℚ) : Option ℚ :=
  (aspects.find? (fun a => decide (a.value = aspect))).map
    (fun a => (bodyOrb body1 + bodyOrb body2) / 2 * a.coef)

/-- `body_id(b_name)` of `ketu/ketu.py`:
`bodies['id'][np.where(bodies['name'] == b_name.encode())]` — the array of
ids of catalog entries whose name equals the argument exactly
(byte-for-byte, hence case-sensitively). -/
def body_id (b_name : String) : List Int :=
  (bodies.filter (fun b => b.name == b_name)).map Body.id

/-- The aspect-scanning loop of `get_aspect`: iterate the aspect catalog in
order; for the conjunction test `aspect == 0 and dist <= orb` return
`(body1, body2, aspect, dist)`; for the window test
`aspect - orb <= dist <= aspect + orb` return
`(body1, body2, aspect, aspect - dist)`; otherwise continue. -/
def aspect_scan (b1 b2 : ℕ) (dist : ℚ) : List Aspect → Option (ℕ × ℕ × ℚ × ℚ)
  | [] => none
  | a :: rest =>
    let orb := (get_orb b1 b2 a.value).getD 0
    if a.value = 0 ∧ dist ≤ orb then some (b1, b2, a.value, dist)
    else if a.value - orb ≤ dist ∧ dist ≤ a.value + orb then
      some (b1, b2, a.value, a.value - dist)
    else aspect_scan b1 b2 dist rest

/-- `get_aspect(jdate, body1, body2)` of `ketu/ketu.py`.  The date enters
only through the bodies' longitudes, abstracted as `long`.  The function
first swaps its body arguments into ascending order, computes the angular
distance of their longitudes, and scans the aspect catalog. -/
def get_aspect (long : ℕ → ℚ) (body1 body2 : ℕ) : Option (ℕ × ℕ × ℚ × ℚ) :=
  let p := if body1 > body2 then (body2, body1) else (body1, body2)
  aspect_scan p.1 p.2 (distance (long p.1) (long p.2)) aspects

/-- `itertools.combinations(l, 2)`: all pairs of elements of `l` in list
order, each pair of positions exactly once. -/
def pairs : List ℕ → List (ℕ × ℕ)
  | [] => []
  | x :: xs => xs.map (fun y => (x, y)) ++ pairs xs

/-- `get_aspects(jdate, bodies_id)` of `ketu/ketu.py`: classify every
combination of two body ids and keep the non-`None` results. -/
def get_aspects (long : ℕ → ℚ) (ids : List ℕ) : List (ℕ × ℕ × ℚ × ℚ) :=
  (pairs ids).filterMap (fun p => get_aspect long p.1 p.2)

/-! Helper lemmas shared by the claim theorems. -/

/-- Every orb in the body catalog is non-negative. -/
lemma bodyOrb_nonneg (b : ℕ) : 0 ≤ bodyOrb b := by
  unfold bodyOrb
  cases hb : bodies[b]? with
  | none => simp
  | some x =>
    have hx : x ∈ bodies := by
      have := List.getElem?_eq_some.mp hb
      obtain ⟨hlt, hget⟩ := this
      exact hget ▸ List.getElem_mem hlt
    have horb : ∀ y ∈ bodies, (0:ℚ) ≤ y.orb := by
      intro y hy
      fin_cases hy <;> norm_num
    simpa using horb x hx

/-- A successful scan of the aspect catalog reports exactly the two body ids
it was given, in the given order. -/
lemma aspect_scan_shape (x y : ℕ) (d : ℚ) (l : List Aspect)
    (r : ℕ × ℕ × ℚ × ℚ) (h : aspect_scan x y d l = some r) :
    r.1 = x ∧ r.2.1 = y := by
  induction l with
  | nil => simp [aspect_scan] at h
  | cons a rest ih =>
    simp only [aspect_scan] at h
    split_ifs at h with h1 h2
    · cases h; exact ⟨rfl, rfl⟩
    · cases h; exact ⟨rfl, rfl⟩
    · exact ih h

/-- The classifier is symmetric in its body arguments: both orders reduce to
the same canonical pair before the scan. -/
lemma get_aspect_comm (long : ℕ → ℚ) (b1 b2 : ℕ) :
    get_aspect long b1 b2 = get_aspect long b2 b1 := by
  unfold get_aspect
  rcases Nat.lt_trichotomy b1 b2 with h | h | h
  · rw [if_neg (by omega : ¬ b1 > b2), if_pos (by omega : b2 > b1)]
  · subst h; rfl
  · rw [if_pos (by omega : b1 > b2), if_neg (by omega : ¬ b2 > b1)]

/-- The coefficient lookup of `get_orb` succeeds on the conjunction value 0,
returning the mean of the two orbs times coefficient 1. -/
lemma get_orb_conj (x y : ℕ) :
    get_orb x y 0 = some ((bodyOrb x + bodyOrb y) / 2 * 1) := by
  norm_num [get_orb, aspects, List.find?]

/-- Every pair produced by `pairs l` has both components in `l`. -/
lemma mem_of_mem_pairs (l : List ℕ) (p : ℕ × ℕ) (h : p ∈ pairs l) :
    p.1 ∈ l ∧ p.2 ∈ l := by
  induction l with
  | nil => simp [pairs] at h
  | cons x xs ih =>
    simp only [pairs, List.mem_append, List.mem_map] at h
    rcases h with ⟨y, hy, rfl⟩ | h
    · exact ⟨List.mem_cons_self x xs, List.mem_cons_of_mem x hy⟩
    · obtain ⟨h1, h2⟩ := ih h
      exact ⟨List.mem_cons_of_mem x h1, List.mem_cons_of_mem x h2⟩

/-- If `a` does not occur in `l`, no pair of `pairs l` mentions `a`, so the
count of pairs representing the unordered pair of `a` and `b` is zero. -/
lemma countP_pairs_eq_zero (l : List ℕ) (a b : ℕ) (h : a ∉ l ∨ b ∉ l) :
    (pairs l).countP (fun p => decide (p = (a, b) ∨ p = (b, a))) = 0 := by
  rw [List.countP_eq_zero]
  intro p hp
  obtain ⟨h1, h2⟩ := mem_of_mem_pairs l p hp
  simp only [decide_eq_true_eq]
  rintro (rfl | rfl)
  · rcases h with h | h
    · exact h h1
    · exact h h2
  · rcases h with h | h
    · exact h h2
    · exact h h1

/-- On a duplicate-free list, each unordered pair of distinct members is
represented exactly once among the ordered pairs of `pairs l`. -/
lemma countP_pairs_eq_one (l : List ℕ) (hnd : l.Nodup) (a b : ℕ)
    (ha : a ∈ l) (hb : b ∈ l) (hab : a ≠ b) :
    (pairs l).countP (fun p => decide (p = (a, b) ∨ p = (b, a))) = 1 := by
  induction l with
  | nil => simp at ha
  | cons x xs ih =>
    obtain ⟨hx, hxs⟩ := List.nodup_cons.mp hnd
    simp only [pairs, List.countP_append, List.countP_map]
    rcases List.mem_cons.mp ha with rfl | ha'
    · have hb' : b ∈ xs := by
        rcases List.mem_cons.mp hb with rfl | h
        · exact absurd rfl hab
        · exact h
      have hmap : xs.countP
          ((fun p => decide (p = (a, b) ∨ p = (b, a))) ∘ fun y => (a, y)) = 1 := by
        have : ((fun p => decide (p = (a, b) ∨ p = (b, a))) ∘ fun y => (a, y)) =
            fun y => decide (y = b) := by
          funext y
          simp only [Function.comp_apply]
          rw [decide_eq_decide]
          simp [Prod.ext_iff, hab, Ne.symm hab]
        rw [this]
        have := List.count_eq_one_of_mem hxs hb'
        simpa [List.count] using this
      rw [hmap, countP_pairs_eq_zero xs a b (Or.inl hx)]
    · rcases List.mem_cons.mp hb with rfl | hb'
      · have hmap : xs.countP
            ((fun p => decide (p = (a, b) ∨ p = (b, a))) ∘ fun y => (b, y)) = 1 := by
          have : ((fun p => decide (p = (a, b) ∨ p = (b, a))) ∘ fun y => (b, y)) =
              fun y => decide (y = a) := by
            funext y
            simp only [Function.comp_apply]
            rw [decide_eq_decide]
            simp [Prod.ext_iff, hab, Ne.symm hab]
          rw [this]
          have := List.count_eq_one_of_mem hxs ha'
          simpa [List.count] using this
        rw [hmap, countP_pairs_eq_zero xs a b (Or.inr hx)]
      · have hmap : xs.countP
            ((fun p => decide (p = (a, b) ∨ p = (b, a))) ∘ fun y => (x, y)) = 0 := by
          rw [List.countP_eq_zero]
          intro y hy
          simp only [Function.comp_apply, decide_eq_true_eq, Prod.mk.injEq]
          have hxa : x ≠ a := fun h => hx (h ▸ ha')
          have hxb : x ≠ b := fun h => hx (h ▸ hb')
          rintro (⟨h1, -⟩ | ⟨h1, -⟩)
          · exact hxa h1
          · exact hxb h1
        rw [hmap, ih hxs ha' hb']


/-- Twice the number of pairs produced from a list of length `n` is
`n * (n - 1)`. -/
lemma pairs_length (l : List ℕ) :
    2 * (pairs l).length = l.length * (l.length - 1) := by
  induction l with
  | nil => rfl
  | cons x xs ih =>
    simp only [pairs, List.length_append, List.length_map, List.length_cons]
    cases hxs : xs.length with
    | zero =>
      have : xs = [] := List.length_eq_zero.mp hxs
      subst this
      simp [pairs]
    | succ n =>
      rw [hxs] at ih
      simp only [Nat.succ_sub_one] at ih ⊢
      nlinarith [ih]

/-! Claim theorems. -/

/-- C5: for all longitudes `a`, `b` in `[0, 360)`, the angular distance is
symmetric — `distance a b = distance b a` — and lies in `[0, 180]`. -/
theorem distance_symm_and_range (a b : ℚ) (ha0 : 0 ≤ a) (ha1 : a < 360)
    (hb0 : 0 ≤ b) (hb1 : b < 360) :
    distance a b = distance b a ∧ 0 ≤ distance a b ∧ distance a b ≤ 180 := by
  have h0 : 0 ≤ |b - a| := abs_nonneg _
  have h1 : |b - a| < 360 := by
    rw [abs_lt]
    constructor <;> linarith
  constructor
  · simp only [distance]
    rw [abs_sub_comm]
  · simp only [distance]
    split_ifs with h
    · exact ⟨h0, h⟩
    · constructor <;> linarith

/-- C5 witness: the property at the concrete longitudes 10 and 350. -/
theorem distance_symm_and_range_witness :
    distance 10 350 = distance 350 10 ∧
    0 ≤ distance 10 350 ∧ distance 10 350 ≤ 180 :=
  distance_symm_and_range 10 350 (by norm_num) (by norm_num) (by norm_num)
    (by norm_num)

/-- C8: the orb resolver is symmetric in its two body arguments, and on
every catalog aspect it returns the mean of the two bodies' orbs times the
aspect's coefficient. -/
theorem get_orb_symmetric (b1 b2 : ℕ) (v : ℚ) :
    get_orb b1 b2 v = get_orb b2 b1 v ∧
    ∀ a ∈ aspects, get_orb b1 b2 a.value =
      some ((bodyOrb b1 + bodyOrb b2) / 2 * a.coef) := by
  constructor
  · simp only [get_orb, add_comm (bodyOrb b2) (bodyOrb b1)]
  · intro a ha
    fin_cases ha <;> norm_num [get_orb, aspects, List.find?]

/-- C8 witness: Sun and Moon with the Square aspect: both orders give the
orb `(12 + 12)/2 * 1/2`. -/
theorem get_orb_symmetric_witness :
    get_orb 0 1 90 = get_orb 1 0 90 ∧
    get_orb 0 1 (Aspect.mk "Square" 90 (1/2)).value =
      some ((bodyOrb 0 + bodyOrb 1) / 2 * (Aspect.mk "Square" 90 (1/2)).coef) :=
  ⟨(get_orb_symmetric 0 1 90).1,
   (get_orb_symmetric 0 1 90).2 (Aspect.mk "Square" 90 (1/2))
     (by simp [aspects])⟩

/-- C9: on a body set of size 0 or 1 the aspect-set builder returns the
empty sequence (it is a total function, so no error is raised). -/
theorem get_aspects_empty_on_small (long : ℕ → ℚ) (ids : List ℕ)
    (h : ids.length ≤ 1) : get_aspects long ids = [] := by
  cases ids with
  | nil => rfl
  | cons x t =>
    cases t with
    | nil => rfl
    | cons y t2 =>
      simp only [List.length_cons] at h
      omega

/-- C9 witness: the singleton body set containing Venus yields no aspects. -/
theorem get_aspects_empty_on_small_witness :
    get_aspects (fun _ => (0:ℚ)) [3] = [] :=
  get_aspects_empty_on_small (fun _ => (0:ℚ)) [3] (by norm_num)

/-- C2 counterexample: the claim says lookup of an absent name fails with
`NotFoundError` and never silently returns an empty result; the code's
lookup of the absent (case-mismatched) name "sun" silently returns the
empty id array. -/
theorem body_id_case_mismatch_returns_empty : body_id "sun" = [] := by decide

/-- C2 amended: catalog lookup by name returns the empty id array exactly
when the name is absent (case-sensitive exact match); no error is raised
and no ambiguous result is produced for present names. -/
theorem body_id_empty_iff_absent (s : String) :
    body_id s = [] ↔ ∀ x ∈ bodies, x.name ≠ s := by
  unfold body_id
  rw [List.map_eq_nil_iff, List.filter_eq_nil_iff]
  simp

/-- C2 witness: the absent name "Pluton" is looked up to the empty array. -/
theorem body_id_empty_iff_absent_witness : body_id "Pluton" = [] :=
  (body_id_empty_iff_absent "Pluton").2 (by decide)

/-- C10: the classifier is symmetric in its body arguments, and every
non-`none` result reports its bodies in canonical order: the returned first
body id is at most the returned second body id. -/
theorem get_aspect_symmetric_canonical (long : ℕ → ℚ) (b1 b2 : ℕ) :
    get_aspect long b1 b2 = get_aspect long b2 b1 ∧
    ∀ r : ℕ × ℕ × ℚ × ℚ, get_aspect long b1 b2 = some r → r.1 ≤ r.2.1 := by
  refine ⟨get_aspect_comm long b1 b2, ?_⟩
  intro r hr
  simp only [get_aspect] at hr
  by_cases h : b1 > b2
  · rw [if_pos h] at hr
    obtain ⟨h1, h2⟩ := aspect_scan_shape _ _ _ _ _ hr
    rw [h1, h2]
    exact Nat.le_of_lt h
  · rw [if_neg h] at hr
    obtain ⟨h1, h2⟩ := aspect_scan_shape _ _ _ _ _ hr
    rw [h1, h2]
    omega

/-- C10 witness: Moon and Sun both at longitude 0, in either argument
order, classify identically, and the reported pair is the canonical
(0, 1). -/
theorem get_aspect_symmetric_canonical_witness :
    get_aspect (fun _ => (0:ℚ)) 1 0 = get_aspect (fun _ => (0:ℚ)) 0 1 ∧
    (0:ℕ) ≤ 1 :=
  ⟨(get_aspect_symmetric_canonical (fun _ => (0:ℚ)) 1 0).1,
   (get_aspect_symmetric_canonical (fun _ => (0:ℚ)) 1 0).2 (0, 1, 0, 0)
     (by norm_num [get_aspect, aspect_scan, get_orb, aspects, List.find?,
        bodyOrb, bodies, distance])⟩

/-- C1: at a date where the Sun is at longitude 0 and the Moon at 61, the
distance is 61 and the sextile (separation 60) matches, but the code
returns the signed residual `60 - 61 = -1`, not `abs(60 - 61) = 1` as the
claim states: line 157 of `ketu/ketu.py` omits the absolute value that the
repository's own pre-version (`src/ketu.py`) applies. -/
theorem get_aspect_residual_signed_at_61 :
    get_aspect (fun b => if b = 1 then (61:ℚ) else 0) 0 1 =
      some (0, 1, 60, -1) ∧
    (-1 : ℚ) ≠ |(60:ℚ) - 61| := by
  constructor
  · norm_num [get_aspect, aspect_scan, get_orb, aspects, List.find?,
      bodyOrb, bodies, distance, abs]
  · have h : (60:ℚ) - 61 = -1 := by norm_num
    rw [h, abs_neg, abs_one]
    norm_num

/-- C4: whenever the longitudes of Pluto (id 9) and Rahu (id 10) differ by
exactly 181 degrees, the angular distance normalizes to 179, the classifier
returns Opposition (separation 180) with residual 1, and every resolved orb
for this pair is at most 2 degrees. -/
theorem pluto_rahu_opposition (long : ℕ → ℚ)
    (h : |long 10 - long 9| = 181) :
    distance (long 9) (long 10) = 179 ∧
    get_aspect long 9 10 = some (9, 10, 180, 1) ∧
    ∀ a ∈ aspects, (get_orb 9 10 a.value).getD 0 ≤ 2 := by
  have hd : distance (long 9) (long 10) = 179 := by
    simp only [distance]
    rw [h]
    norm_num
  refine ⟨hd, ?_, ?_⟩
  · show aspect_scan 9 10 (distance (long 9) (long 10)) aspects = _
    rw [hd]
    norm_num [aspect_scan, get_orb, aspects, List.find?, bodyOrb, bodies]
  · intro a ha
    fin_cases ha <;> norm_num [get_orb, aspects, List.find?, bodyOrb, bodies]

/-- C4 witness: Pluto at longitude 0 and Rahu at 181. -/
theorem pluto_rahu_opposition_witness :
    distance 0 181 = 179 ∧
    get_aspect (fun b => if b = 10 then (181:ℚ) else 0) 9 10 =
      some (9, 10, 180, 1) ∧
    ∀ a ∈ aspects, (get_orb 9 10 a.value).getD 0 ≤ 2 :=
  pluto_rahu_opposition (fun b => if b = 10 then (181:ℚ) else 0)
    (by norm_num)

/-- C6: two catalog bodies at angular distance exactly 0 always classify as
Conjunction (separation 0) with residual 0; the resolved conjunction orb is
non-negative because every catalog orb is. -/
theorem conjunction_at_zero_distance (long : ℕ → ℚ) (b1 b2 : ℕ)
    (hb1 : b1 < 11) (hb2 : b2 < 11)
    (hd : distance (long b1) (long b2) = 0) :
    get_aspect long b1 b2 = some (min b1 b2, max b1 b2, 0, 0) := by
  have hsymm : distance (long b2) (long b1) = 0 := by
    simp only [distance] at hd ⊢
    rw [abs_sub_comm]
    exact hd
  have hscan : ∀ x y : ℕ, aspect_scan x y 0 aspects = some (x, y, 0, 0) := by
    intro x y
    show aspect_scan x y 0 (Aspect.mk "Conjunction" 0 1 :: _) = _
    simp only [aspect_scan]
    rw [if_pos]
    refine ⟨by trivial, ?_⟩
    rw [get_orb_conj]
    simp only [Option.getD_some, mul_one]
    have h1 := bodyOrb_nonneg x
    have h2 := bodyOrb_nonneg y
    linarith
  simp only [get_aspect]
  by_cases hgt : b1 > b2
  · have hmin : min b1 b2 = b2 := by omega
    have hmax : max b1 b2 = b1 := by omega
    rw [if_pos hgt, hmin, hmax]
    show aspect_scan b2 b1 (distance (long b2) (long b1)) aspects = _
    rw [hsymm]
    exact hscan b2 b1
  · have hmin : min b1 b2 = b1 := by omega
    have hmax : max b1 b2 = b2 := by omega
    rw [if_neg hgt, hmin, hmax]
    show aspect_scan b1 b2 (distance (long b1) (long b2)) aspects = _
    rw [hd]
    exact hscan b1 b2

/-- C6 witness: Jupiter (5) and Saturn (6) at the same longitude classify
as Conjunction with residual 0. -/
theorem conjunction_at_zero_distance_witness :
    get_aspect (fun _ => (123:ℚ)) 5 6 = some (5, 6, 0, 0) :=
  conjunction_at_zero_distance (fun _ => (123:ℚ)) 5 6 (by norm_num)
    (by norm_num) (by norm_num [distance])

/-- C3: `get_aspects` classifies the list `pairs ids` of candidate pairs;
for a duplicate-free body set this list has exactly
`n * (n - 1) / 2` entries, each unordered pair of distinct members is
represented exactly once, and the classifier evaluates every pair under the
canonical `(min, max)` representation (it is invariant under swapping). -/
theorem get_aspects_pair_complete (ids : List ℕ) (hnd : ids.Nodup) :
    (pairs ids).length = ids.length * (ids.length - 1) / 2 ∧
    (∀ a b : ℕ, a ∈ ids → b ∈ ids → a ≠ b →
      (pairs ids).countP (fun p => decide (p = (a, b) ∨ p = (b, a))) = 1) ∧
    ∀ (long : ℕ → ℚ) (a b : ℕ),
      get_aspect long a b = get_aspect long (min a b) (max a b) := by
  refine ⟨?_, ?_, ?_⟩
  · have := pairs_length ids
    omega
  · intro a b ha hb hab
    exact countP_pairs_eq_one ids hnd a b ha hb hab
  · intro long a b
    rcases Nat.le_total a b with h | h
    · rw [Nat.min_eq_left h, Nat.max_eq_right h]
    · rw [Nat.min_eq_right h, Nat.max_eq_left h]
      exact get_aspect_comm long a b

/-- C3 witness: the three-body set with ids 0, 1, 2 produces 3 pairs, and
the unordered pair of 0 and 2 occurs exactly once. -/
theorem get_aspects_pair_complete_witness :
    (pairs [0, 1, 2]).length = [0, 1, 2].length * ([0, 1, 2].length - 1) / 2 ∧
    (pairs [0, 1, 2]).countP (fun p => decide (p = (0, 2) ∨ p = (2, 0))) = 1 :=
  ⟨(get_aspects_pair_complete [0, 1, 2] (by decide)).1,
   (get_aspects_pair_complete [0, 1, 2] (by decide)).2.1 0 2 (by decide)
     (by decide) (by decide)⟩

/-- C7: for every non-negative decimal-degree value, `dd_to_dms` truncates
rather than rounds — the reconstruction
`degrees + minutes/60 + seconds/3600` never exceeds the input — and the
reconstruction approximates the input to within one arc-second. -/
theorem dd_to_dms_truncation_bound (deg : ℚ) (hdeg : 0 ≤ deg) :
    dms_recon deg ≤ deg ∧ deg - dms_recon deg < 1 / 3600 := by
  set A : ℤ := ⌊deg * 3600 / 60⌋ with hA
  have hA0 : 0 ≤ A := Int.floor_nonneg.mpr (by positivity)
  have hA1 : (A:ℚ) ≤ deg * 3600 / 60 := Int.floor_le _
  have hA2 : deg * 3600 / 60 < A + 1 := Int.lt_floor_add_one _
  set D : ℤ := ⌊(A:ℚ) / 60⌋ with hD
  have hD0 : 0 ≤ D :=
    Int.floor_nonneg.mpr (div_nonneg (by exact_mod_cast hA0) (by norm_num))
  have hD1 : (D:ℚ) ≤ (A:ℚ) / 60 := Int.floor_le _
  have hD2 : (A:ℚ) / 60 < D + 1 := Int.lt_floor_add_one _
  have hsec0 : (0:ℚ) ≤ deg * 3600 - 60 * (A:ℚ) := by linarith
  set S : ℤ := ⌊deg * 3600 - 60 * (A:ℚ)⌋ with hS
  have hS1 : (S:ℚ) ≤ deg * 3600 - 60 * (A:ℚ) := Int.floor_le _
  have hS2 : deg * 3600 - 60 * (A:ℚ) < S + 1 := Int.lt_floor_add_one _
  have hDA : 60 * D ≤ A := by
    have : (60:ℚ) * (D:ℚ) ≤ (A:ℚ) := by linarith
    exact_mod_cast this
  have hmins2 : (A:ℚ) - 60 * (D:ℚ) = ((A - 60 * D : ℤ) : ℚ) := by
    push_cast
    ring
  have e : dd_to_dms deg = (D, A - 60 * D, S) := by
    simp only [dd_to_dms, floorDivQ, floorModQ]
    rw [← hA, ← hD]
    have e1 : truncInt (D:ℚ) = D := by
      rw [truncInt, if_neg (by exact_mod_cast not_lt.mpr hD0)]
      exact Int.floor_intCast D
    have e2 : truncInt ((A:ℚ) - 60 * (D:ℚ)) = A - 60 * D := by
      rw [truncInt, hmins2,
        if_neg (by exact_mod_cast not_lt.mpr (by omega : (0:ℤ) ≤ A - 60 * D))]
      exact Int.floor_intCast _
    have e3 : truncInt (deg * 3600 - 60 * (A:ℚ)) = S := by
      rw [truncInt, if_neg (not_lt.mpr hsec0)]
    rw [e1, e2, e3]
  have recon : dms_recon deg = (D:ℚ) + ((A - 60 * D : ℤ):ℚ) / 60 +
      (S:ℚ) / 3600 := by
    simp only [dms_recon, e]
  constructor
  · rw [recon]
    push_cast
    linarith
  · rw [recon]
    push_cast
    linarith

/-- C7 witness: the property at the spec's concrete value 271.45 degrees. -/
theorem dd_to_dms_truncation_bound_witness :
    dms_recon (5431/20) ≤ (5431/20 : ℚ) ∧
    (5431/20 : ℚ) - dms_recon (5431/20) < 1 / 3600 :=
  dd_to_dms_truncation_bound (5431/20) (by norm_num)

end Ketu
